import Mathlib

/-!
Verification development for the YOLOv4 training repository
(`train.py` and `data/convert_annotations.py`).

The Python code is shallowly embedded: configuration values become fields of
a `Config` structure, Python floats are modelled by exact rationals `ℚ`,
Python `int()` truncation and `//` floor division are modelled explicitly,
and the stateful training loop becomes an explicit state-transition function
over a `LoopState` record together with a trace of observable actions.
-/

/-- The slice of the training configuration (`cfg.py` / `Cfg`, plus the
`train` keyword arguments) that the verified properties depend on.
`steps1`/`steps2` are the two entries of `config.steps`; `pretrained`
is the optional pretrained-weights path from the command line. -/
structure Config where
  batch : ℕ
  subdivisions : ℕ
  learning_rate : ℚ
  burn_in : ℕ
  steps1 : ℕ
  steps2 : ℕ
  keep_checkpoint_max : ℤ
  pretrained : Option String
deriving DecidableEq

/-- Embeds `burnin_schedule` (src/train.py lines 55-64):
`if i < config.burn_in: factor = pow(i / config.burn_in, 4)`
`elif i < config.steps[0]: factor = 1.0`
`elif i < config.steps[1]: factor = 0.1`
`else: factor = 0.01`.
The scheduler argument `i` is a non-negative integer; float arithmetic is
modelled exactly over `ℚ`. -/
def burnin_schedule (cfg : Config) (i : ℕ) : ℚ :=
  if i < cfg.burn_in then ((i : ℚ) / (cfg.burn_in : ℚ)) ^ 4
  else if i < cfg.steps1 then 1
  else if i < cfg.steps2 then 1 / 10
  else 1 / 100

/-- Observable actions performed by one iteration of the inner training loop
(src/train.py lines 101-136): the backward pass accumulating gradients
(line 112), the optimizer step (line 117), the scheduler step (line 118),
the gradient clear (line 119), and the periodic progress record carrying the
reported learning rate `scheduler.get_lr()[0] * config.batch`
(lines 121-136). -/
inductive Act where
  | backward
  | optStep
  | schedStep
  | zeroGrad
  | logRecord (lr : ℚ)
deriving DecidableEq

/-- Mutable state threaded through the training loop: `global_step`
(src/train.py line 37, incremented at line 102), the `LambdaLR` scheduler's
internal epoch counter (`last_epoch`, equal to the number of
`scheduler.step()` calls; `0` right after construction at line 81), and the
number of micro-batches whose gradients are currently accumulated in the
parameters' gradient storage (incremented by `loss.backward()` at line 112,
reset by `model.zero_grad()` at line 119). -/
structure LoopState where
  global_step : ℕ
  schedEpoch : ℕ
  gradMicro : ℕ
deriving DecidableEq

/-- The loop state before the first micro-batch. -/
def initState : LoopState := ⟨0, 0, 0⟩

/-- The learning-rate multiplier currently in effect: `LambdaLR` scales the
optimizer's base rate by `burnin_schedule(last_epoch)`. -/
def lrFactorInEffect (cfg : Config) (st : LoopState) : ℚ :=
  burnin_schedule cfg st.schedEpoch

/-- The effective learning rate printed by the progress record
(src/train.py lines 129 and 136): `scheduler.get_lr()[0] * config.batch`,
where the optimizer's base rate is `config.learning_rate / config.batch`
(lines 70 and 77). -/
def reportedLr (cfg : Config) (st : LoopState) : ℚ :=
  lrFactorInEffect cfg st * (cfg.learning_rate / (cfg.batch : ℚ)) * (cfg.batch : ℚ)

/-- Embeds one iteration of the inner loop over `train_loader`
(src/train.py lines 101-136), returning the successor state and the trace of
observable actions, in program order:
`global_step += 1` (line 102); `loss.backward()` (line 112);
`if global_step % config.subdivisions == 0:` `optimizer.step()`,
`scheduler.step()`, `model.zero_grad()` (lines 116-119);
`if global_step % (log_step * config.subdivisions) == 0:` emit the progress
record with the reported learning rate (lines 121-136). -/
def microBatch (cfg : Config) (log_step : ℕ) (st : LoopState) : LoopState × List Act :=
  let g := st.global_step + 1
  let st1 : LoopState := ⟨g, st.schedEpoch, st.gradMicro + 1⟩
  let s2 : LoopState × List Act :=
    if g % cfg.subdivisions = 0 then
      (⟨g, st1.schedEpoch + 1, 0⟩, [Act.optStep, Act.schedStep, Act.zeroGrad])
    else (st1, [])
  let logActs : List Act :=
    if g % (log_step * cfg.subdivisions) = 0 then [Act.logRecord (reportedLr cfg s2.1)]
    else []
  (s2.1, Act.backward :: (s2.2 ++ logActs))

/-- Loop state after `n` processed micro-batches (counted across epochs:
`global_step` is never reset between epochs). -/
def stateAfter (cfg : Config) (log_step : ℕ) : ℕ → LoopState
  | 0 => initState
  | n + 1 => (microBatch cfg log_step (stateAfter cfg log_step n)).1

/-- The action trace of the `g`-th processed micro-batch (1-indexed, so that
`g` coincides with the value of `global_step` during that iteration). -/
def microActions (cfg : Config) (log_step : ℕ) (g : ℕ) : List Act :=
  (microBatch cfg log_step (stateAfter cfg log_step (g - 1))).2

/-- Concrete configuration with the repository defaults for the loop claims:
`batch = 64`, `subdivisions = 8`, `learning_rate = 1/1000`,
`burn_in = 1000`, `steps = (400000, 450000)`, `keep_checkpoint_max = 10`. -/
def cfgW : Config := ⟨64, 8, 1 / 1000, 1000, 400000, 450000, 10, none⟩

/-- Configuration used for the C2 counterexample: `subdivisions = 2`,
`burn_in = 1000`. -/
def cfgC2 : Config := ⟨64, 2, 1, 1000, 400000, 450000, 10, none⟩

/-- Embeds the per-epoch checkpoint bookkeeping (src/train.py lines 166-181):
`saved_models.append(save_path)` (line 175), then
`if len(saved_models) > config.keep_checkpoint_max > 0:` (line 176, a Python
chained comparison: length exceeds the maximum AND the maximum is positive)
`saved_models.popleft()` and removal of that file (lines 177-179).
Checkpoints are identified by their 1-based epoch number (the path is
`Yolov4_epoch{epoch + 1}.pth`, line 172). -/
def checkpointStep (k : ℤ) (saved : List ℕ) (path : ℕ) : List ℕ :=
  if ((saved ++ [path]).length : ℤ) > k ∧ k > 0 then (saved ++ [path]).tail
  else saved ++ [path]

/-- The retained checkpoints after `n` completed epochs with saving enabled:
epoch index `e` saves path number `e + 1`, so epochs `0 .. n-1` save
`1 .. n`. -/
def savedAfter (k : ℤ) : ℕ → List ℕ
  | 0 => []
  | n + 1 => checkpointStep k (savedAfter k n) (n + 1)

/-- Embeds `freeze_backbone = cfg.pretrained is not None`
(src/train.py line 244): the freeze logic is armed exactly when a
pretrained-weights path was supplied. -/
def freezeBackboneFlag (pretrained : Option String) : Bool :=
  pretrained.isSome

/-- Embeds the start-of-epoch freeze block (src/train.py lines 93-98):
`if freeze_backbone and epoch < 2:` for each parameter whose name satisfies
`not 'head' in name.split('.')[0]` (its first dot-component does not contain
the substring `head`, i.e. a backbone parameter) set
`p.requires_grad = False if (epoch == 0) else True`; all other parameters,
and every parameter outside the first two epochs, keep their previous
`requires_grad` value `rg`. `headFirst` is the value of the substring test
for this parameter. -/
def freezeUpdate (freeze_backbone : Bool) (epoch : ℕ) (headFirst : Bool) (rg : Bool) : Bool :=
  if freeze_backbone ∧ epoch < 2 then
    if ¬ headFirst = true then (if epoch = 0 then false else true) else rg
  else rg

/-- The `requires_grad` value of a parameter while epoch `e` is processed:
PyTorch parameters start with `requires_grad = True`, and the freeze block
runs at the start of every epoch. -/
def requiresGradDuring (freeze_backbone : Bool) (headFirst : Bool) : ℕ → Bool
  | 0 => freezeUpdate freeze_backbone 0 headFirst true
  | e + 1 => freezeUpdate freeze_backbone (e + 1) headFirst
      (requiresGradDuring freeze_backbone headFirst e)

/-- Embeds the start of `train` up to the data-loader construction
(src/train.py lines 26-35): the micro-batch size handed to both data
loaders is `config.batch // config.subdivisions` (floor division, lines 32
and 34). The failures Python raises here from the batch/subdivisions pair:
`ZeroDivisionError` when `subdivisions = 0`, and torch's `DataLoader`
constructor at line 32 rejecting a non-positive `batch_size` with
`ValueError` when `batch // subdivisions = 0` (i.e. `subdivisions > batch`).
No divisibility validation of any kind is performed. -/
def trainSetup (cfg : Config) : Except String ℕ :=
  if cfg.subdivisions = 0 then Except.error "ZeroDivisionError"
  else if cfg.batch / cfg.subdivisions = 0 then
    Except.error "ValueError: batch_size should be a positive integer value"
  else Except.ok (cfg.batch / cfg.subdivisions)

/-- Configuration whose subdivision count does not divide the batch:
`batch = 10`, `subdivisions = 3`. -/
def cfgC6 : Config := ⟨10, 3, 1 / 1000, 1000, 400000, 450000, 10, none⟩

/-- Python `int()` applied to a float value: truncation toward zero,
modelled on exact rationals. -/
def pyInt (q : ℚ) : ℤ :=
  if 0 ≤ q then ⌊q⌋ else -⌊-q⌋

/-- One line of a YOLO label file after the split at spaces
(src/data/convert_annotations.py lines 56-58): the class token `line[0]`
and the four normalized floats `line[1] .. line[4]`, modelled exactly over
`ℚ`. -/
structure YoloLine where
  cls : String
  x : ℚ
  y : ℚ
  w : ℚ
  h : ℚ
deriving DecidableEq

/-- One converted label entry as written by
src/data/convert_annotations.py line 74 (` {xmin},{ymin},{xmax},{ymax},{class}`),
kept structured instead of rendered to text. -/
structure BoxLabel where
  xmin : ℤ
  ymin : ℤ
  xmax : ℤ
  ymax : ℤ
  cls : String
deriving DecidableEq

/-- Embeds the per-line conversion (src/data/convert_annotations.py lines
60-74): denormalize by the image dimensions (`img.shape[0]` is the height,
`img.shape[1]` the width), convert the centre/size box to corner
coordinates, and truncate each corner with `int()`. -/
def convertLine (img_height img_width : ℕ) (l : YoloLine) : BoxLabel :=
  let x := l.x * (img_width : ℚ)
  let y := l.y * (img_height : ℚ)
  let w := l.w * (img_width : ℚ)
  let h := l.h * (img_height : ℚ)
  ⟨pyInt (x - w / 2), pyInt (y - h / 2), pyInt (x + w / 2), pyInt (y + h / 2), l.cls⟩

/-- One directory entry of the flat `images` folder as seen by
`convert_labels` (src/data/convert_annotations.py lines 40-46): the file
name; whether `file_name.split('.')[1] == 'jpg'` holds (line 46); the
parsed content of the accompanying `.txt` label file (`none` when the file
is missing, in which case `open` at line 54 raises `FileNotFoundError`);
and the image dimensions `(shape[0], shape[1]) = (height, width)` as read
by `cv2.imread` (`none` when the image cannot be read, in which case
`img.shape` at line 61 raises `AttributeError` on `None`). -/
structure DirEntry where
  name : String
  isJpg : Bool
  labelLines : Option (List YoloLine)
  imgDims : Option (ℕ × ℕ)
deriving DecidableEq

/-- Embeds the handling of one image (src/data/convert_annotations.py lines
54-74): opening a missing label file raises; every label line triggers a
`cv2.imread` inside the loop, and an unreadable image raises on
`img.shape`; otherwise each line is converted with `convertLine`. Note that
since the read happens inside the line loop, an unreadable image whose
label file is empty raises nothing. -/
def processImage (e : DirEntry) : Except String (List BoxLabel) :=
  match e.labelLines with
  | none => Except.error "FileNotFoundError"
  | some lines =>
    lines.mapM (fun l =>
      match e.imgDims with
      | none => Except.error "AttributeError"
      | some (h, w) => Except.ok (convertLine h w l))

/-- The labels `processImage` yields on an entry it resolves: the converted
lines when both files are present, `[]` when the label file is empty. -/
def entryLabels (e : DirEntry) : List BoxLabel :=
  match e.labelLines, e.imgDims with
  | some lines, some (h, w) => lines.map (fun l => convertLine h w l)
  | some _, none => []
  | none, _ => []

/-- The two manifests under construction (the lines of `train.txt` and
`val.txt`, each an image name with its converted labels, kept structured)
and the `processed` counter (src/data/convert_annotations.py lines 44
and 82). -/
structure ConvState where
  train : List (String × List BoxLabel)
  val : List (String × List BoxLabel)
  processed : ℕ
deriving DecidableEq

/-- Embeds one iteration of the `for file_name in files` loop
(src/data/convert_annotations.py lines 45-83): non-jpg entries are skipped
entirely; for a jpg entry the target manifest is chosen by
`processed < train_size` (lines 49-52) before the label file is opened, the
labels are built (lines 54-74, which can raise), a manifest line is written
only if `len(labels) > 0` (lines 75-81), and `processed` is incremented
unconditionally (line 82). -/
def convStep (train_size : ℕ) (st : ConvState) (e : DirEntry) : Except String ConvState :=
  if e.isJpg = true then
    match processImage e with
    | Except.error msg => Except.error msg
    | Except.ok labels =>
      let st2 :=
        if 0 < labels.length then
          if st.processed < train_size then
            { st with train := st.train ++ [(e.name, labels)] }
          else
            { st with val := st.val ++ [(e.name, labels)] }
        else st
      Except.ok { st2 with processed := st.processed + 1 }
  else Except.ok st

/-- The `for file_name in files` loop itself: entries are handled in order
and an uncaught exception aborts the remaining iterations. -/
def convRun (train_size : ℕ) (st : ConvState) : List DirEntry → Except String ConvState
  | [] => Except.ok st
  | e :: rest =>
    match convStep train_size st e with
    | Except.error msg => Except.error msg
    | Except.ok st2 => convRun train_size st2 rest

/-- Embeds `convert_labels` (src/data/convert_annotations.py lines 26-83)
on a given (already shuffled) directory listing, starting from empty
manifests and `processed = 0`. -/
def convertLabels (train_size : ℕ) (files : List DirEntry) : Except String ConvState :=
  convRun train_size ⟨[], [], 0⟩ files

/-- Embeds lines 32-33 of src/data/convert_annotations.py:
`number_images = int(len(os.listdir(data_folder)) / 2)` (true float
division then `int()` truncation) and
`train_size = int(number_images * (1 - validation_split))` with
`validation_split = 0.10`. -/
def trainSize (numFiles : ℕ) : ℕ :=
  (pyInt ((pyInt ((numFiles : ℚ) / 2) : ℚ) * (1 - 1 / 10))).toNat

/-- A jpg image whose `.txt` label file is missing. -/
def entryBad : DirEntry := ⟨"000000.jpg", true, none, some (480, 640)⟩

/-- A fully resolvable jpg image with one annotation. -/
def entryGood : DirEntry := ⟨"000001.jpg", true, some [⟨"0", 1 / 2, 1 / 2, 1 / 4, 1 / 4⟩],
  some (480, 640)⟩

/-- A jpg image whose label file exists but is empty. -/
def entryEmpty : DirEntry := ⟨"000000.jpg", true, some [], some (480, 640)⟩

/-- The label file accompanying `000000.jpg` as a directory entry. -/
def entryTxtA : DirEntry := ⟨"000000.txt", false, none, none⟩

/-- The label file accompanying `000001.jpg` as a directory entry. -/
def entryTxtB : DirEntry := ⟨"000001.txt", false, none, none⟩

/-- A four-file listing (two jpgs, their two label files) in which the
empty-labelled jpg is shuffled in front of the train/validation cut. -/
def filesC10 : List DirEntry := [entryEmpty, entryGood, entryTxtA, entryTxtB]

/-- Conversion result for the single-entry listing `[entryGood]` with
`train_size = 1`. -/
def stC10W : ConvState :=
  ⟨[("000001.jpg", [⟨240, 180, 400, 300, "0"⟩])], [], 1⟩

theorem stateAfter_eq (cfg : Config) (log_step : ℕ) (hs : 0 < cfg.subdivisions) (n : ℕ) :
    stateAfter cfg log_step n = ⟨n, n / cfg.subdivisions, n % cfg.subdivisions⟩ := by
  induction n with
  | zero => simp [stateAfter, initState]
  | succ n ih =>
    rw [stateAfter, ih]
    by_cases hd : (n + 1) % cfg.subdivisions = 0
    · have hdvd : cfg.subdivisions ∣ (n + 1) := Nat.dvd_of_mod_eq_zero hd
      have hdiv : (n + 1) / cfg.subdivisions = n / cfg.subdivisions + 1 := by
        rw [Nat.succ_div, if_pos hdvd]
      simp [microBatch, hd, hdiv]
    · have hndvd : ¬ cfg.subdivisions ∣ (n + 1) := fun h =>
        hd (Nat.mod_eq_zero_of_dvd h)
      have hdiv : (n + 1) / cfg.subdivisions = n / cfg.subdivisions := by
        rw [Nat.succ_div, if_neg hndvd, Nat.add_zero]
      have hs1 : cfg.subdivisions ≠ 1 := by
        intro h
        rw [h] at hndvd
        exact hndvd (one_dvd _)
      have h1s : 1 % cfg.subdivisions = 1 := Nat.mod_eq_of_lt (by omega)
      have hlt : n % cfg.subdivisions < cfg.subdivisions := Nat.mod_lt _ hs
      have hadd : (n + 1) % cfg.subdivisions = (n % cfg.subdivisions + 1) % cfg.subdivisions := by
        conv_lhs => rw [Nat.add_mod, h1s]
      have hne : n % cfg.subdivisions + 1 ≠ cfg.subdivisions := by
        intro h
        exact hd (by rw [hadd, h, Nat.mod_self])
      have hmod : (n + 1) % cfg.subdivisions = n % cfg.subdivisions + 1 := by
        rw [hadd, Nat.mod_eq_of_lt (by omega)]
      simp [microBatch, hd, hdiv, hmod]

theorem microActions_eq (cfg : Config) (log_step : ℕ) (hs : 0 < cfg.subdivisions)
    (g : ℕ) (hg : 1 ≤ g) :
    microActions cfg log_step g =
      Act.backward ::
        ((if g % cfg.subdivisions = 0 then [Act.optStep, Act.schedStep, Act.zeroGrad]
          else []) ++
         (if g % (log_step * cfg.subdivisions) = 0 then
            [Act.logRecord (reportedLr cfg (stateAfter cfg log_step g))]
          else [])) := by
  obtain ⟨m, rfl⟩ : ∃ m, g = m + 1 := ⟨g - 1, (Nat.succ_pred_eq_of_pos hg).symm⟩
  unfold microActions
  simp only [Nat.add_sub_cancel]
  conv_rhs => rw [show stateAfter cfg log_step (m + 1) =
    (microBatch cfg log_step (stateAfter cfg log_step m)).1 from rfl]
  have hgs : (stateAfter cfg log_step m).global_step = m := by
    rw [stateAfter_eq cfg log_step hs m]
  by_cases h1 : (m + 1) % cfg.subdivisions = 0 <;>
    by_cases h2 : (m + 1) % (log_step * cfg.subdivisions) = 0 <;>
      simp [microBatch, hgs, h1, h2]

theorem optStep_mem_iff (cfg : Config) (log_step : ℕ) (hs : 0 < cfg.subdivisions)
    (g : ℕ) (hg : 1 ≤ g) :
    Act.optStep ∈ microActions cfg log_step g ↔ cfg.subdivisions ∣ g := by
  rw [microActions_eq cfg log_step hs g hg]
  by_cases h1 : g % cfg.subdivisions = 0 <;>
    by_cases h2 : g % (log_step * cfg.subdivisions) = 0 <;>
      simp [h1, h2, Nat.dvd_iff_mod_eq_zero]

theorem zeroGrad_mem_iff (cfg : Config) (log_step : ℕ) (hs : 0 < cfg.subdivisions)
    (g : ℕ) (hg : 1 ≤ g) :
    Act.zeroGrad ∈ microActions cfg log_step g ↔ cfg.subdivisions ∣ g := by
  rw [microActions_eq cfg log_step hs g hg]
  by_cases h1 : g % cfg.subdivisions = 0 <;>
    by_cases h2 : g % (log_step * cfg.subdivisions) = 0 <;>
      simp [h1, h2, Nat.dvd_iff_mod_eq_zero]

theorem unique_multiple_in_window {s : ℕ} (hs : 0 < s) (a : ℕ) :
    ∃! m, (a < m ∧ m ≤ a + s) ∧ s ∣ m := by
  have hmlt : a % s < s := Nat.mod_lt _ hs
  have hda := Nat.div_add_mod a s
  refine ⟨a + (s - a % s), ⟨⟨by omega, by omega⟩, ?_⟩, ?_⟩
  · have hrw : a + (s - a % s) = s * (a / s) + s := by omega
    rw [hrw]
    exact (dvd_mul_right s (a / s)).add dvd_rfl
  · rintro m ⟨⟨hm1, hm2⟩, hmd⟩
    obtain ⟨k, rfl⟩ := hmd
    have hk1 : a / s < k := by
      by_contra h
      push_neg at h
      have : s * k ≤ s * (a / s) := Nat.mul_le_mul_left _ h
      omega
    have hk2 : k ≤ a / s + 1 := by
      by_contra h
      push_neg at h
      have hle : s * (a / s + 2) ≤ s * k := Nat.mul_le_mul_left _ (by omega)
      have hexp : s * (a / s + 2) = s * (a / s) + s + s := by ring
      omega
    have hk : k = a / s + 1 := by omega
    subst hk
    have hexp : s * (a / s + 1) = s * (a / s) + s := by ring
    omega

/-- Claim C1: for every subdivisions value `s > 1`, the optimizer step and
the gradient-clear each fire exactly when the post-increment `global_step`
is divisible by `s` (hence exactly once across any `s` consecutive
micro-batches, on the `s`-th of an aligned group and never earlier), and
within such a micro-batch the gradient clear comes after the optimizer step
(with only the scheduler step between them) and no clear ever precedes the
step. -/
theorem C1_accumulation_cadence (cfg : Config) (log_step : ℕ)
    (hs : 1 < cfg.subdivisions) (g : ℕ) (hg : 1 ≤ g) :
    (Act.optStep ∈ microActions cfg log_step g ↔ cfg.subdivisions ∣ g) ∧
    (Act.zeroGrad ∈ microActions cfg log_step g ↔ cfg.subdivisions ∣ g) ∧
    (cfg.subdivisions ∣ g →
      ∃ pre post, microActions cfg log_step g =
          pre ++ [Act.optStep, Act.schedStep, Act.zeroGrad] ++ post ∧
        Act.zeroGrad ∉ pre) ∧
    (∀ a : ℕ, ∃! m, (a < m ∧ m ≤ a + cfg.subdivisions) ∧
        Act.optStep ∈ microActions cfg log_step m) := by
  have hs0 : 0 < cfg.subdivisions := lt_trans Nat.zero_lt_one hs
  refine ⟨optStep_mem_iff cfg log_step hs0 g hg,
    zeroGrad_mem_iff cfg log_step hs0 g hg, ?_, ?_⟩
  · intro hdvd
    have h1 : g % cfg.subdivisions = 0 := Nat.mod_eq_zero_of_dvd hdvd
    rw [microActions_eq cfg log_step hs0 g hg]
    refine ⟨[Act.backward],
      if g % (log_step * cfg.subdivisions) = 0 then
        [Act.logRecord (reportedLr cfg (stateAfter cfg log_step g))]
      else [], ?_, by simp⟩
    simp [h1]
  · intro a
    obtain ⟨m₀, ⟨hw, hd⟩, huniq⟩ := unique_multiple_in_window hs0 a
    refine ⟨m₀, ⟨hw, (optStep_mem_iff cfg log_step hs0 m₀ (by omega)).mpr hd⟩, ?_⟩
    rintro m ⟨hw2, hmem⟩
    exact huniq m ⟨hw2, (optStep_mem_iff cfg log_step hs0 m (by omega)).mp hmem⟩

/-- Witness for C1 at `subdivisions = 8`, micro-batch `g = 8`. -/
theorem C1_accumulation_cadence_witness :
    (1 < cfgW.subdivisions ∧ 1 ≤ 8) ∧
    ((Act.optStep ∈ microActions cfgW 20 8 ↔ cfgW.subdivisions ∣ 8) ∧
    (Act.zeroGrad ∈ microActions cfgW 20 8 ↔ cfgW.subdivisions ∣ 8) ∧
    (cfgW.subdivisions ∣ 8 →
      ∃ pre post, microActions cfgW 20 8 =
          pre ++ [Act.optStep, Act.schedStep, Act.zeroGrad] ++ post ∧
        Act.zeroGrad ∉ pre) ∧
    (∀ a : ℕ, ∃! m, (a < m ∧ m ≤ a + cfgW.subdivisions) ∧
        Act.optStep ∈ microActions cfgW 20 m)) :=
  ⟨⟨by decide, by decide⟩, C1_accumulation_cadence cfgW 20 (by decide) 8 (by decide)⟩

/-- Claim C2 is false as stated: with `subdivisions = 2`, after two processed
micro-batches the multiplier in effect is `burnin_schedule 1` (the scheduler
has stepped once), not `burnin_schedule global_step = burnin_schedule 2`:
`(1/1000)^4 ≠ (2/1000)^4`. -/
theorem C2_counterexample :
    lrFactorInEffect cfgC2 (stateAfter cfgC2 20 2) ≠
      burnin_schedule cfgC2 (stateAfter cfgC2 20 2).global_step := by
  have h1 : stateAfter cfgC2 20 2 = ⟨2, 1, 0⟩ := by decide
  rw [h1]
  norm_num [lrFactorInEffect, burnin_schedule, cfgC2]

/-- Claim C2 (amended): the learning-rate multiplier in effect after `n`
processed micro-batches equals the burn-in schedule applied to
`n / subdivisions` — the number of completed optimizer/scheduler steps, a
counter derived from `global_step`, not `global_step` itself (they agree
only when `subdivisions = 1` or before burn-in effects differ). -/
theorem C2_amended_factor (cfg : Config) (log_step : ℕ)
    (hs : 0 < cfg.subdivisions) (n : ℕ) :
    (stateAfter cfg log_step n).global_step = n ∧
    lrFactorInEffect cfg (stateAfter cfg log_step n) =
      burnin_schedule cfg (n / cfg.subdivisions) := by
  rw [stateAfter_eq cfg log_step hs n]
  exact ⟨rfl, rfl⟩

/-- Witness for the amended C2 at `subdivisions = 2`, `n = 2`. -/
theorem C2_amended_factor_witness :
    0 < cfgC2.subdivisions ∧
    ((stateAfter cfgC2 20 2).global_step = 2 ∧
      lrFactorInEffect cfgC2 (stateAfter cfgC2 20 2) =
        burnin_schedule cfgC2 (2 / cfgC2.subdivisions)) :=
  ⟨by decide, C2_amended_factor cfgC2 20 (by decide) 2⟩

/-- Claim C8: a progress record is emitted in micro-batch `g` exactly when
`g` is a multiple of `log_step * subdivisions`; the reported learning rate
is `schedule_factor * base_rate * batch` where the optimizer base rate is
`learning_rate / batch`, so the emitted record carries exactly
`schedule_factor * learning_rate` (with the factor the one in effect,
`burnin_schedule (g / subdivisions)`). -/
theorem C8_logging (cfg : Config) (log_step : ℕ)
    (hs : 0 < cfg.subdivisions) ( _hl : 0 < log_step) (hb : 0 < cfg.batch)
    (g : ℕ) (hg : 1 ≤ g) :
    ((∃ q, Act.logRecord q ∈ microActions cfg log_step g) ↔
      (log_step * cfg.subdivisions) ∣ g) ∧
    (∀ st : LoopState, reportedLr cfg st = lrFactorInEffect cfg st * cfg.learning_rate) ∧
    ((log_step * cfg.subdivisions) ∣ g →
      Act.logRecord (burnin_schedule cfg (g / cfg.subdivisions) * cfg.learning_rate)
        ∈ microActions cfg log_step g) := by
  have hbq : (cfg.batch : ℚ) ≠ 0 := by
    exact_mod_cast Nat.pos_iff_ne_zero.mp hb
  have hrep : ∀ st : LoopState,
      reportedLr cfg st = lrFactorInEffect cfg st * cfg.learning_rate := by
    intro st
    unfold reportedLr
    rw [mul_assoc, div_mul_cancel₀ _ hbq]
  refine ⟨?_, hrep, ?_⟩
  · rw [microActions_eq cfg log_step hs g hg]
    by_cases h2 : g % (log_step * cfg.subdivisions) = 0 <;>
      by_cases h1 : g % cfg.subdivisions = 0 <;>
        simp [h1, h2, Nat.dvd_iff_mod_eq_zero]
  · intro hdvd
    have h2 : g % (log_step * cfg.subdivisions) = 0 := Nat.mod_eq_zero_of_dvd hdvd
    rw [microActions_eq cfg log_step hs g hg]
    have hval : reportedLr cfg (stateAfter cfg log_step g) =
        burnin_schedule cfg (g / cfg.subdivisions) * cfg.learning_rate := by
      rw [hrep, lrFactorInEffect, stateAfter_eq cfg log_step hs g]
    rw [h2]
    simp [hval]

/-- Witness for C8 at the default configuration, `log_step = 20`,
`g = 160 = 20 * 8`. -/
theorem C8_logging_witness :
    (0 < cfgW.subdivisions ∧ 0 < 20 ∧ 0 < cfgW.batch ∧ 1 ≤ 160) ∧
    (((∃ q, Act.logRecord q ∈ microActions cfgW 20 160) ↔
        (20 * cfgW.subdivisions) ∣ 160) ∧
      (∀ st : LoopState,
        reportedLr cfgW st = lrFactorInEffect cfgW st * cfgW.learning_rate) ∧
      ((20 * cfgW.subdivisions) ∣ 160 →
        Act.logRecord (burnin_schedule cfgW (160 / cfgW.subdivisions) * cfgW.learning_rate)
          ∈ microActions cfgW 20 160)) :=
  ⟨⟨by decide, by decide, by decide, by decide⟩,
    C8_logging cfgW 20 (by decide) (by decide) (by decide) 160 (by decide)⟩

/-- Claim C3: the schedule is the exact piecewise map: for `0 ≤ i < burn_in`
the factor is `(i/burn_in)^4` (hence `0` at `i = 0` and monotonically
non-decreasing there); for `burn_in ≤ i < steps[0]` it is `1.0`; for
`steps[0] ≤ i < steps[1]` it is `0.1`; and for `i ≥ steps[1]` it is exactly
`0.01`. Stated for configurations with `0 < burn_in ≤ steps[0] ≤ steps[1]`,
the ordering the claim's ranges presuppose. -/
theorem C3_schedule_piecewise (cfg : Config)
    (hb : 0 < cfg.burn_in)
    (h01 : cfg.burn_in ≤ cfg.steps1) (h12 : cfg.steps1 ≤ cfg.steps2) :
    (∀ i, i < cfg.burn_in → burnin_schedule cfg i = ((i : ℚ) / (cfg.burn_in : ℚ)) ^ 4) ∧
    burnin_schedule cfg 0 = 0 ∧
    (∀ i j, i ≤ j → j < cfg.burn_in → burnin_schedule cfg i ≤ burnin_schedule cfg j) ∧
    (∀ i, cfg.burn_in ≤ i → i < cfg.steps1 → burnin_schedule cfg i = 1) ∧
    (∀ i, cfg.steps1 ≤ i → i < cfg.steps2 → burnin_schedule cfg i = 1 / 10) ∧
    (∀ i, cfg.steps2 ≤ i → burnin_schedule cfg i = 1 / 100) := by
  refine ⟨?_, ?_, ?_, ?_, ?_, ?_⟩
  · intro i hi
    simp [burnin_schedule, hi]
  · simp [burnin_schedule, hb]
  · intro i j hij hj
    have hi : i < cfg.burn_in := lt_of_le_of_lt hij hj
    simp only [burnin_schedule, hi, hj, if_pos]
    have hbq : (0 : ℚ) < (cfg.burn_in : ℚ) := by exact_mod_cast hb
    have hij' : (i : ℚ) ≤ (j : ℚ) := by exact_mod_cast hij
    gcongr
  · intro i h1 h2
    have hni : ¬ i < cfg.burn_in := not_lt.mpr h1
    simp [burnin_schedule, hni, h2]
  · intro i h1 h2
    have hni : ¬ i < cfg.burn_in := not_lt.mpr (le_trans h01 h1)
    have hn1 : ¬ i < cfg.steps1 := not_lt.mpr h1
    simp [burnin_schedule, hni, hn1, h2]
  · intro i h2
    have hni : ¬ i < cfg.burn_in := not_lt.mpr (le_trans (le_trans h01 h12) h2)
    have hn1 : ¬ i < cfg.steps1 := not_lt.mpr (le_trans h12 h2)
    have hn2 : ¬ i < cfg.steps2 := not_lt.mpr h2
    simp [burnin_schedule, hni, hn1, hn2]

/-- Witness for C3 at the concrete configuration
`burn_in = 1000, steps = (400000, 450000)` (the repository defaults). -/
theorem C3_schedule_piecewise_witness :
    burnin_schedule ⟨64, 8, 1 / 1000, 1000, 400000, 450000, 10, none⟩ 500 = (1 / 2) ^ 4 ∧
    burnin_schedule ⟨64, 8, 1 / 1000, 1000, 400000, 450000, 10, none⟩ 450000 = 1 / 100 := by
  have h := C3_schedule_piecewise ⟨64, 8, 1 / 1000, 1000, 400000, 450000, 10, none⟩
    (by decide) (by decide) (by decide)
  refine ⟨?_, h.2.2.2.2.2 450000 (by decide)⟩
  have h1 := h.1 500 (by decide)
  rw [h1]
  norm_num

/-- Claim C4: after `N` completed epochs with saving enabled and
`keep_checkpoint_max = k > 0`, exactly `min N k` checkpoint files remain and
they are the most recently created ones (epoch numbers
`N - min N k + 1, ..., N`; the oldest is evicted first); with `k ≤ 0` no
eviction ever occurs and all `N` files remain. -/
theorem C4_checkpoint_rotation (k : ℤ) (N : ℕ) :
    (0 < k →
      savedAfter k N = List.range' (N - min N k.toNat + 1) (min N k.toNat) ∧
      (savedAfter k N).length = min N k.toNat) ∧
    (k ≤ 0 →
      savedAfter k N = List.range' 1 N ∧ (savedAfter k N).length = N) := by
  constructor
  · intro hk
    have hkc : (k.toNat : ℤ) = k := Int.toNat_of_nonneg (le_of_lt hk)
    have hmain : savedAfter k N =
        List.range' (N - min N k.toNat + 1) (min N k.toNat) := by
      induction N with
      | zero => simp [savedAfter]
      | succ N ih =>
        rw [savedAfter, ih]
        by_cases hc : N < k.toNat
        · have hm : min N k.toNat = N := by omega
          have hm1 : min (N + 1) k.toNat = N + 1 := by omega
          rw [hm, hm1, Nat.sub_self, Nat.sub_self, Nat.zero_add]
          have hcat : List.range' 1 N ++ [N + 1] = List.range' 1 (N + 1) := by
            rw [List.range'_1_concat, Nat.add_comm 1 N]
          have hcond : ¬(((List.range' 1 N ++ [N + 1]).length : ℤ) > k ∧ k > 0) := by
            rintro ⟨h1, -⟩
            rw [List.length_append, List.length_range'] at h1
            simp only [List.length_cons, List.length_nil] at h1
            omega
          rw [checkpointStep, if_neg hcond, hcat]
        · have hm : min N k.toNat = k.toNat := by omega
          have hm1 : min (N + 1) k.toNat = k.toNat := by omega
          rw [hm, hm1]
          have hsum : N - k.toNat + 1 + k.toNat = N + 1 := by omega
          have hcat : List.range' (N - k.toNat + 1) k.toNat ++ [N + 1] =
              List.range' (N - k.toNat + 1) (k.toNat + 1) := by
            rw [List.range'_1_concat, hsum]
          have hcond : ((List.range' (N - k.toNat + 1) k.toNat ++ [N + 1]).length : ℤ) > k
              ∧ k > 0 := by
            constructor
            · rw [List.length_append, List.length_range']
              simp only [List.length_cons, List.length_nil]
              omega
            · exact hk
          rw [checkpointStep, if_pos hcond, hcat, List.range'_succ]
          simp only [List.tail_cons]
          congr 1
          omega
    refine ⟨hmain, ?_⟩
    rw [hmain, List.length_range']
  · intro hk
    have hmain : savedAfter k N = List.range' 1 N := by
      induction N with
      | zero => simp [savedAfter]
      | succ N ih =>
        rw [savedAfter, ih]
        have hcond : ¬(((List.range' 1 N ++ [N + 1]).length : ℤ) > k ∧ k > 0) := by
          rintro ⟨-, h2⟩
          omega
        rw [checkpointStep, if_neg hcond, List.range'_1_concat, Nat.add_comm 1 N]
    refine ⟨hmain, ?_⟩
    rw [hmain, List.length_range']

/-- Witness for C4: with `keep_checkpoint_max = 3` and 5 epochs the files
for epochs 3, 4, 5 remain; with `keep_checkpoint_max = -1` and 4 epochs all
four remain. -/
theorem C4_checkpoint_rotation_witness :
    savedAfter 3 5 = [3, 4, 5] ∧ savedAfter (-1) 4 = [1, 2, 3, 4] := by
  constructor
  · have h1 := (C4_checkpoint_rotation 3 5).1 (by decide)
    rw [h1.1]
    decide
  · have h2 := (C4_checkpoint_rotation (-1) 4).2 (by decide)
    rw [h2.1]
    decide

/-- Claim C5: if and only if pretrained weights were supplied, backbone
(non-head) parameters are non-trainable during epoch 0 and trainable during
every epoch from index 1 onward (the unfreeze transition happens exactly
once, entering epoch 1, after which the value never changes); head
parameters are always trainable; without pretrained weights every parameter
is trainable from epoch 0 on. -/
theorem C5_backbone_freeze (pretrained : Option String) (e : ℕ) :
    (requiresGradDuring (freezeBackboneFlag pretrained) false 0 = false ↔
      pretrained.isSome = true) ∧
    (1 ≤ e → requiresGradDuring (freezeBackboneFlag pretrained) false e = true) ∧
    (requiresGradDuring (freezeBackboneFlag pretrained) true e = true) ∧
    (pretrained.isSome = false →
      requiresGradDuring (freezeBackboneFlag pretrained) false e = true) := by
  have hhead : ∀ fb : Bool, ∀ n : ℕ, requiresGradDuring fb true n = true := by
    intro fb n
    induction n with
    | zero => simp [requiresGradDuring, freezeUpdate]
    | succ n ih => simp [requiresGradDuring, freezeUpdate, ih]
  have hoff : ∀ hf : Bool, ∀ n : ℕ, requiresGradDuring false hf n = true := by
    intro hf n
    induction n with
    | zero => simp [requiresGradDuring, freezeUpdate]
    | succ n ih => simp [requiresGradDuring, freezeUpdate, ih]
  have hon : ∀ n : ℕ, requiresGradDuring true false (n + 1) = true := by
    intro n
    induction n with
    | zero => simp [requiresGradDuring, freezeUpdate]
    | succ m ih =>
      rw [show requiresGradDuring true false (m + 1 + 1) =
        freezeUpdate true (m + 1 + 1) false (requiresGradDuring true false (m + 1)) from rfl]
      rw [ih]
      have hlt : ¬ (m + 1 + 1 < 2) := by omega
      simp [freezeUpdate, hlt]
  refine ⟨?_, ?_, ?_, ?_⟩
  · cases hp : pretrained with
    | none => simp [freezeBackboneFlag, requiresGradDuring, freezeUpdate]
    | some p => simp [freezeBackboneFlag, requiresGradDuring, freezeUpdate]
  · intro he
    cases hp : pretrained with
    | none => exact hoff false e
    | some p =>
      obtain ⟨n, rfl⟩ : ∃ n, e = n + 1 := ⟨e - 1, by omega⟩
      have hfb : freezeBackboneFlag (some p) = true := rfl
      rw [hfb]
      exact hon n
  · exact hhead _ e
  · intro hp
    cases pretrained with
    | none => exact hoff false e
    | some p => simp [Option.isSome] at hp

/-- Witness for C5: with pretrained weights a backbone parameter is frozen
in epoch 0 and trainable in epoch 1; without them it is trainable in
epoch 0. -/
theorem C5_backbone_freeze_witness :
    requiresGradDuring (freezeBackboneFlag (some "yolov4.conv.137")) false 0 = false ∧
    (1 ≤ 1 ∧ requiresGradDuring (freezeBackboneFlag (some "yolov4.conv.137")) false 1 = true) ∧
    requiresGradDuring (freezeBackboneFlag none) false 0 = true := by
  refine ⟨?_, ⟨by decide, ?_⟩, ?_⟩
  · exact (C5_backbone_freeze (some "yolov4.conv.137") 1).1.mpr (by decide)
  · exact (C5_backbone_freeze (some "yolov4.conv.137") 1).2.1 (by decide)
  · exact (C5_backbone_freeze none 0).2.2.2 (by decide)

/-- Claim C6 is false as stated: with `batch = 10` and `subdivisions = 3`
(which does not divide the batch evenly) the run does not abort — setup
succeeds and training proceeds with micro-batch size `10 // 3 = 3`. -/
theorem C6_counterexample :
    ¬ cfgC6.batch % cfgC6.subdivisions = 0 ∧ trainSetup cfgC6 = Except.ok 3 :=
  ⟨by decide, rfl⟩

/-- Claim C6 (amended): the code performs no divisibility validation:
whenever `subdivisions > 0` and the floor quotient `batch // subdivisions`
is positive, setup succeeds with that micro-batch size even when
`subdivisions` does not divide `batch`. The only aborts arising from the
batch/subdivisions pair are `subdivisions = 0` (`ZeroDivisionError`) and
`batch // subdivisions = 0` (the `DataLoader` rejects a non-positive
`batch_size` with `ValueError`, covering `subdivisions > batch`) — neither
is a divisibility check. -/
theorem C6_amended_no_validation (cfg : Config) (hs : 0 < cfg.subdivisions)
    (hbs : 0 < cfg.batch / cfg.subdivisions) :
    trainSetup cfg = Except.ok (cfg.batch / cfg.subdivisions) := by
  unfold trainSetup
  rw [if_neg (by omega), if_neg (by omega)]

/-- Witness for the amended C6 at `batch = 10, subdivisions = 3`
(micro-batch size `10 // 3 = 3 > 0`). -/
theorem C6_amended_no_validation_witness :
    (0 < cfgC6.subdivisions ∧ 0 < cfgC6.batch / cfgC6.subdivisions) ∧
      trainSetup cfgC6 = Except.ok (cfgC6.batch / cfgC6.subdivisions) :=
  ⟨⟨by decide, by decide⟩, C6_amended_no_validation cfgC6 (by decide) (by decide)⟩

theorem convert_example :
    convertLine 480 640 ⟨"0", 1 / 2, 1 / 2, 1 / 4, 1 / 4⟩ =
      ⟨240, 180, 400, 300, "0"⟩ := by
  unfold convertLine pyInt
  norm_num

/-- Claim C9: for an image of size 640×480 (so `shape = (480, 640, ...)`)
and the YOLO line `"0 0.5 0.5 0.25 0.25"`, the converter produces exactly
`xmin = 240, ymin = 180, xmax = 400, ymax = 300` with class `0`. -/
theorem C9_example_box :
    convertLine 480 640 ⟨"0", 1 / 2, 1 / 2, 1 / 4, 1 / 4⟩ =
      ⟨240, 180, 400, 300, "0"⟩ :=
  convert_example

theorem convStep_nonjpg {ts : ℕ} {st : ConvState} {e : DirEntry}
    (hj : ¬ e.isJpg = true) : convStep ts st e = Except.ok st := by
  unfold convStep
  rw [if_neg hj]

theorem convStep_err {ts : ℕ} {st : ConvState} {e : DirEntry} {msg : String}
    (hj : e.isJpg = true) (hpi : processImage e = Except.error msg) :
    convStep ts st e = Except.error msg := by
  unfold convStep
  rw [if_pos hj, hpi]

theorem convStep_ok {ts : ℕ} {st : ConvState} {e : DirEntry} {labels : List BoxLabel}
    (hj : e.isJpg = true) (hpi : processImage e = Except.ok labels) :
    convStep ts st e = Except.ok
      { (if 0 < labels.length then
          if st.processed < ts then { st with train := st.train ++ [(e.name, labels)] }
          else { st with val := st.val ++ [(e.name, labels)] }
        else st) with processed := st.processed + 1 } := by
  unfold convStep
  rw [if_pos hj, hpi]

theorem convRun_ok_iff (ts : ℕ) (files : List DirEntry) : ∀ st0 : ConvState,
    (∃ st, convRun ts st0 files = Except.ok st) ↔
      ∀ e ∈ files, e.isJpg = true → ∃ ls, processImage e = Except.ok ls := by
  induction files with
  | nil =>
    intro st0
    simp [convRun]
  | cons e rest ih =>
    intro st0
    rw [convRun]
    by_cases hj : e.isJpg = true
    · cases hpi : processImage e with
      | error msg =>
        rw [convStep_err hj hpi]
        constructor
        · rintro ⟨st, hst⟩
          exact absurd hst (by simp)
        · intro hall
          obtain ⟨ls, hls⟩ := hall e (List.mem_cons_self e rest) hj
          rw [hpi] at hls
          exact absurd hls (by simp)
      | ok labels =>
        rw [convStep_ok hj hpi]
        simp only []
        rw [ih]
        constructor
        · intro hrest
          intro e2 hmem hj2
          rcases List.mem_cons.mp hmem with h | h
          · subst h
            exact ⟨labels, hpi⟩
          · exact hrest e2 h hj2
        · intro hall e2 hmem hj2
          exact hall e2 (List.mem_cons_of_mem _ hmem) hj2
    · rw [convStep_nonjpg hj]
      simp only []
      rw [ih]
      constructor
      · intro hrest e2 hmem hj2
        rcases List.mem_cons.mp hmem with h | h
        · subst h
          exact absurd hj2 hj
        · exact hrest e2 h hj2
      · intro hall e2 hmem hj2
        exact hall e2 (List.mem_cons_of_mem _ hmem) hj2

/-- Claim C7 is false as stated: with two images of which only the first is
missing its label file, the whole conversion aborts with the uncaught
`FileNotFoundError` instead of skipping that single entry with a warning;
the second, resolvable entry is never converted. -/
theorem C7_counterexample :
    convertLabels (trainSize 4) [entryBad, entryGood] =
      Except.error "FileNotFoundError" := rfl

/-- Claim C7 (amended): the conversion runs to completion if and only if
every jpg entry's label/image pairing is resolvable; any single
unresolvable entry raises an uncaught exception that aborts the entire
conversion — no per-entry skip and no warning exist. -/
theorem C7_amended_abort (ts : ℕ) (files : List DirEntry) :
    (∃ st, convertLabels ts files = Except.ok st) ↔
      ∀ e ∈ files, e.isJpg = true → ∃ ls, processImage e = Except.ok ls :=
  convRun_ok_iff ts files ⟨[], [], 0⟩

theorem mapM_ok {α β : Type} (f : α → β) :
    ∀ l : List α, l.mapM (fun a => (Except.ok (f a) : Except String β)) =
      Except.ok (l.map f) := by
  intro l
  induction l with
  | nil => rfl
  | cons a l ih =>
    rw [List.mapM_cons, ih]
    rfl

theorem processImage_ok_labels {e : DirEntry} {ls : List BoxLabel}
    (h : processImage e = Except.ok ls) : ls = entryLabels e := by
  obtain ⟨name, jpg, lbl, dims⟩ := e
  cases lbl with
  | none =>
    have h2 : (Except.error "FileNotFoundError" : Except String (List BoxLabel)) =
        Except.ok ls := h
    simp at h2
  | some lines =>
    cases dims with
    | none =>
      cases lines with
      | nil =>
        have h2 : (Except.ok [] : Except String (List BoxLabel)) = Except.ok ls := h
        cases h2
        rfl
      | cons l rest =>
        have h2 : (Except.error "AttributeError" : Except String (List BoxLabel)) =
            Except.ok ls := by
          rw [← h]
          rfl
        simp at h2
    | some dims2 =>
      obtain ⟨dh, dw⟩ := dims2
      have h2 : lines.mapM (fun l => (Except.ok (convertLine dh dw l) :
          Except String BoxLabel)) = Except.ok ls := h
      rw [mapM_ok (fun l => convertLine dh dw l) lines] at h2
      cases h2
      rfl

theorem convRun_characterization (ts : ℕ) (files : List DirEntry) : ∀ st0 st : ConvState,
    convRun ts st0 files = Except.ok st →
      st.processed = st0.processed + (files.filter (fun e => e.isJpg)).length ∧
      st.train = st0.train ++
        (((files.filter (fun e => e.isJpg)).take (ts - st0.processed)).filter
          (fun e => decide (0 < (entryLabels e).length))).map
            (fun e => (e.name, entryLabels e)) ∧
      st.val = st0.val ++
        (((files.filter (fun e => e.isJpg)).drop (ts - st0.processed)).filter
          (fun e => decide (0 < (entryLabels e).length))).map
            (fun e => (e.name, entryLabels e)) := by
  induction files with
  | nil =>
    intro st0 st h
    have h2 : Except.ok st0 = Except.ok st := h
    cases h2
    simp
  | cons e rest ih =>
    intro st0 st h
    rw [convRun] at h
    by_cases hj : e.isJpg = true
    · cases hpi : processImage e with
      | error msg =>
        rw [convStep_err hj hpi] at h
        exact absurd h (by simp)
      | ok labels =>
        rw [convStep_ok hj hpi] at h
        simp only [] at h
        have hlab : labels = entryLabels e := processImage_ok_labels hpi
        subst hlab
        obtain ⟨hp, ht, hv⟩ := ih _ st h
        refine ⟨?_, ?_, ?_⟩
        · rw [hp]
          simp only [List.filter_cons, hj, if_true, List.length_cons]
          omega
        · rw [ht]
          simp only [List.filter_cons, hj, if_true]
          by_cases hpos : st0.processed < ts
          · have hk : ts - st0.processed = (ts - (st0.processed + 1)) + 1 := by omega
            rw [hk, List.take_succ_cons]
            by_cases hlen : 0 < (entryLabels e).length
            · simp [hpos, hlen, List.filter_cons, List.append_assoc]
            · simp [hpos, hlen, List.filter_cons]
          · have hk : ts - st0.processed = 0 := by omega
            have hk1 : ts - (st0.processed + 1) = 0 := by omega
            rw [hk, hk1, List.take_zero] at *
            by_cases hlen : 0 < (entryLabels e).length
            · simp [hpos, hlen]
            · simp [hpos, hlen]
        · rw [hv]
          simp only [List.filter_cons, hj, if_true]
          by_cases hpos : st0.processed < ts
          · have hk : ts - st0.processed = (ts - (st0.processed + 1)) + 1 := by omega
            rw [hk, List.drop_succ_cons]
            by_cases hlen : 0 < (entryLabels e).length
            · simp [hpos, hlen]
            · simp [hpos, hlen]
          · have hk : ts - st0.processed = 0 := by omega
            have hk1 : ts - (st0.processed + 1) = 0 := by omega
            rw [hk, hk1, List.drop_zero] at *
            by_cases hlen : 0 < (entryLabels e).length
            · simp [hpos, hlen, List.filter_cons, List.append_assoc]
            · simp [hpos, hlen, List.filter_cons]
    · rw [convStep_nonjpg hj] at h
      obtain ⟨hp, ht, hv⟩ := ih _ st h
      have hjf : e.isJpg = false := by
        cases hb : e.isJpg
        · rfl
        · exact absurd hb hj
      refine ⟨?_, ?_, ?_⟩
      · rw [hp]
        simp [List.filter_cons, hjf]
      · rw [ht]
        simp [List.filter_cons, hjf]
      · rw [hv]
        simp [List.filter_cons, hjf]

theorem processImage_entryGood :
    processImage entryGood = Except.ok [(⟨240, 180, 400, 300, "0"⟩ : BoxLabel)] := by
  have h2 : processImage entryGood =
      Except.ok [convertLine 480 640 ⟨"0", 1 / 2, 1 / 2, 1 / 4, 1 / 4⟩] := rfl
  rw [h2, convert_example]

theorem trainSize_four : trainSize 4 = 1 := by
  unfold trainSize pyInt
  norm_num

/-- Claim C10: a manifest line is written for an image if and only if its
label file contains at least one annotation, yet every processed jpg
(including those with empty label files) advances the counter that decides
the train/validation cut: the manifests are exactly the nonempty-labelled
entries among the first `train_size` jpgs (train) and among the rest (val).
Hence the train manifest holds at most — and possibly strictly fewer
than — `train_size` lines, and an empty-labelled image appears in neither
manifest; the four-file listing `filesC10` (with
`train_size = trainSize 4 = 1`) exhibits both: its train manifest is empty
and `000000.jpg` appears nowhere. -/
theorem C10_manifest_split (ts : ℕ) (files : List DirEntry) (st : ConvState)
    (hok : convertLabels ts files = Except.ok st) :
    st.processed = (files.filter (fun e => e.isJpg)).length ∧
    st.train = (((files.filter (fun e => e.isJpg)).take ts).filter
      (fun e => decide (0 < (entryLabels e).length))).map
        (fun e => (e.name, entryLabels e)) ∧
    st.val = (((files.filter (fun e => e.isJpg)).drop ts).filter
      (fun e => decide (0 < (entryLabels e).length))).map
        (fun e => (e.name, entryLabels e)) ∧
    st.train.length ≤ ts ∧
    (∃ st4, convertLabels (trainSize 4) filesC10 = Except.ok st4 ∧
      st4.train.length < trainSize 4 ∧
      ∀ ls, ¬ ("000000.jpg", ls) ∈ st4.train ∧ ¬ ("000000.jpg", ls) ∈ st4.val) := by
  obtain ⟨hp, ht, hv⟩ := convRun_characterization ts files ⟨[], [], 0⟩ st hok
  refine ⟨by simpa using hp, by simpa using ht, by simpa using hv, ?_, ?_⟩
  · rw [(by simpa using ht : st.train = (((files.filter (fun e => e.isJpg)).take ts).filter
        (fun e => decide (0 < (entryLabels e).length))).map
          (fun e => (e.name, entryLabels e))), List.length_map]
    exact le_trans (List.length_filter_le _ _) (List.length_take_le _ _)
  · have hres : ∀ e ∈ filesC10, e.isJpg = true → ∃ ls, processImage e = Except.ok ls := by
      intro e hmem hj
      simp only [filesC10, List.mem_cons, List.not_mem_nil, or_false] at hmem
      rcases hmem with rfl | rfl | rfl | rfl
      · exact ⟨[], rfl⟩
      · exact ⟨[(⟨240, 180, 400, 300, "0"⟩ : BoxLabel)], processImage_entryGood⟩
      · exact absurd hj (by decide)
      · exact absurd hj (by decide)
    obtain ⟨st4, hst4⟩ := (convRun_ok_iff (trainSize 4) filesC10 ⟨[], [], 0⟩).mpr hres
    obtain ⟨hp4, ht4, hv4⟩ :=
      convRun_characterization (trainSize 4) filesC10 ⟨[], [], 0⟩ st4 hst4
    have htrain4 : st4.train = [] := by
      calc st4.train = _ := ht4
        _ = [] := by
          rw [trainSize_four]
          rfl
    have hval4 : st4.val =
        [("000001.jpg", [(⟨240, 180, 400, 300, "0"⟩ : BoxLabel)])] := by
      calc st4.val = _ := hv4
        _ = [("000001.jpg", [convertLine 480 640 ⟨"0", 1 / 2, 1 / 2, 1 / 4, 1 / 4⟩])] := by
          rw [trainSize_four]
          rfl
        _ = [("000001.jpg", [(⟨240, 180, 400, 300, "0"⟩ : BoxLabel)])] := by
          rw [convert_example]
    refine ⟨st4, hst4, ?_, ?_⟩
    · rw [htrain4, trainSize_four]
      decide
    · intro ls
      rw [htrain4, hval4]
      constructor
      · exact List.not_mem_nil _
      · intro hmem
        rw [List.mem_singleton] at hmem
        have hfst : "000000.jpg" = "000001.jpg" := congrArg Prod.fst hmem
        exact absurd hfst (by decide)

theorem convertLabels_single :
    convertLabels 1 [entryGood] = Except.ok stC10W := by
  unfold convertLabels
  rw [convRun, convStep_ok rfl processImage_entryGood]
  rfl

/-- Witness for C10 at the single-entry listing `[entryGood]` with
`train_size = 1`. -/
theorem C10_manifest_split_witness :
    convertLabels 1 [entryGood] = Except.ok stC10W ∧
    (stC10W.processed = ([entryGood].filter (fun e => e.isJpg)).length ∧
     stC10W.train = ((([entryGood].filter (fun e => e.isJpg)).take 1).filter
       (fun e => decide (0 < (entryLabels e).length))).map
         (fun e => (e.name, entryLabels e)) ∧
     stC10W.val = ((([entryGood].filter (fun e => e.isJpg)).drop 1).filter
       (fun e => decide (0 < (entryLabels e).length))).map
         (fun e => (e.name, entryLabels e)) ∧
     stC10W.train.length ≤ 1 ∧
     (∃ st4, convertLabels (trainSize 4) filesC10 = Except.ok st4 ∧
       st4.train.length < trainSize 4 ∧
       ∀ ls, ¬ ("000000.jpg", ls) ∈ st4.train ∧ ¬ ("000000.jpg", ls) ∈ st4.val)) :=
  ⟨convertLabels_single, C10_manifest_split 1 [entryGood] stC10W convertLabels_single⟩
